import Mathlib

/-!
Verification development for the yt-transcript-service repository.

The service is a single-endpoint HTTP microservice (three near-duplicate
variants: `src/server.js`, `src/unnamed/part_001`, `src/unnamed/part_002`)
that retrieves a transcript for a video URL through a fallback chain:
YouTube timedtext API, yt-dlp subtitles, Whisper speech-to-text.

Shallow embedding conventions:
* JavaScript strings are modelled as `List Char` (UTF-16 details are
  irrelevant to the claims; all inputs of interest are ASCII).
* The filesystem is an association list of (path, content).
* External collaborators (fetch, yt-dlp, Whisper) are oracles supplied in
  an environment record; a rejected promise is the `thrown` outcome.
* Randomized temp-file names are modelled by fixed distinct constants
  (randomness only serves cross-request freshness, which is irrelevant to
  single-request claims).
* Base64 decoding of the cookie blob is abstracted: the cookie file's
  content is opaque to every claim (only its existence/cleanup matters).
-/

/-! ## Basic character classes and string primitives -/

/-- JavaScript whitespace class `\s`, restricted to the ASCII whitespace
characters (space, tab, LF, CR, VT, FF).  Unicode spaces are not relevant
to any claim. -/
def isWS (c : Char) : Bool :=
  c = ' ' || c = '\t' || c = '\n' || c = '\r' || c.toNat = 11 || c.toNat = 12

/-- JavaScript word-character class `\w` = `[A-Za-z0-9_]`. -/
def isWordChar (c : Char) : Bool :=
  c.isAlphanum || c = '_'

/-- The video-id character class `[A-Za-z0-9_-]`. -/
def isIdChar (c : Char) : Bool :=
  isWordChar c || c = '-'

/-- Does `p` occur at the start of the second list? (`String.startsWith`
restricted to literal patterns, as used by the `^`-anchored regexes). -/
def leadsWith : List Char → List Char → Bool
  | [], _ => true
  | _ :: _, [] => false
  | a :: as, b :: bs => a = b && leadsWith as bs

/-- JavaScript `String.prototype.includes` (substring search). -/
def hasSub (n : List Char) : List Char → Bool
  | [] => n.isEmpty
  | c :: rest => leadsWith n (c :: rest) || hasSub n rest

/-- JavaScript `String.prototype.split` with a single-character separator. -/
def splitOnC (sep : Char) : List Char → List (List Char)
  | [] => [[]]
  | c :: rest =>
    match splitOnC sep rest with
    | [] => [[]]
    | piece :: more =>
      if c = sep then [] :: piece :: more else (c :: piece) :: more

/-- Split at the first occurrence of `sep`; the second component is `none`
when `sep` does not occur (models `URLSearchParams` key/value splitting). -/
def splitAtFirst (sep : Char) : List Char → List Char × Option (List Char)
  | [] => ([], none)
  | c :: rest =>
    if c = sep then ([], some rest)
    else
      let p := splitAtFirst sep rest
      (c :: p.1, p.2)

/-- JavaScript `Array.prototype.join(" ")`. -/
def joinSp : List (List Char) → List Char
  | [] => []
  | [x] => x
  | x :: y :: rest => x ++ ' ' :: joinSp (y :: rest)

/-- Helper for `replace(/\s+/g, " ")`: the flag records whether the
previous character was whitespace (in which case further whitespace is
absorbed rather than emitting another space). -/
def collapseAux : Bool → List Char → List Char
  | _, [] => []
  | prev, c :: rest =>
    if isWS c then
      (if prev then collapseAux true rest else ' ' :: collapseAux true rest)
    else c :: collapseAux false rest

/-- JavaScript `replace(/\s+/g, " ")`: every maximal whitespace run becomes
a single space. -/
def collapseWS (l : List Char) : List Char := collapseAux false l

/-- Drop trailing whitespace (the right half of `String.prototype.trim`). -/
def trimEnd : List Char → List Char
  | [] => []
  | c :: rest =>
    match trimEnd rest with
    | [] => if isWS c then [] else [c]
    | x :: xs => c :: x :: xs

/-- JavaScript `String.prototype.trim`. -/
def jsTrim (l : List Char) : List Char := trimEnd (l.dropWhile isWS)

/-- JavaScript `replace(/\r/g, "")`. -/
def stripCR (l : List Char) : List Char := l.filter (fun c => c != '\r')

/-- JavaScript `toLowerCase`, per character (ASCII suffices here). -/
def toLowerL (l : List Char) : List Char := l.map Char.toLower

/-! ## Markup-to-Text Normalizer (`vttToText`)

`src/unnamed/part_001` lines 34-48 (the most complete variant, with
whitespace collapsing and trimming) and `src/server.js` lines 21-33 /
`src/unnamed/part_002` lines 22-34 (plain join, no collapsing). -/

/-- `/^\d+$/` — the line consists solely of (at least one) digits. -/
def allDigits (l : List Char) : Bool :=
  !l.isEmpty && l.all Char.isDigit

/-- `/^\d{2}:\d{2}:\d{2}\.\d{3}/` — the line starts with a VTT timestamp. -/
def tsPre : List Char → Bool
  | a :: b :: c1 :: d :: e1 :: c2 :: f :: g :: dot :: h1 :: h2 :: h3 :: _ =>
    a.isDigit && b.isDigit && c1 = ':' && d.isDigit && e1.isDigit &&
    c2 = ':' && f.isDigit && g.isDigit && dot = '.' &&
    h1.isDigit && h2.isDigit && h3.isDigit
  | _ => false

/-- The line filter shared by all three variants (they list the same five
conditions, in different but equivalent orders): keep a line iff it is
non-empty, is not the `WEBVTT` header, is not a pure cue number, does not
start with a timestamp, and does not contain the cue separator `-->`. -/
def keepLine (l : List Char) : Bool :=
  !l.isEmpty && !leadsWith "WEBVTT".data l && !allDigits l &&
  !tsPre l && !hasSub "-->".data l

/-- `vttToText` of `src/unnamed/part_001` lines 34-48: normalize line
endings, drop header/number/timestamp/separator/empty lines, join with
spaces, collapse whitespace runs, trim. -/
def vttToText (s : List Char) : List Char :=
  jsTrim (collapseWS (joinSp (((splitOnC '\n' (stripCR s))).filter keepLine)))

/-- `vttToText` of `src/server.js` lines 21-33 (identical filter, but no
whitespace collapsing and no trim). -/
def vttToTextSimple (s : List Char) : List Char :=
  joinSp (((splitOnC '\n' (stripCR s))).filter keepLine)

/-! ## Identifier Extractor (`extractVideoId`)

`src/unnamed/part_001` lines 50-74 = `src/unnamed/part_002` lines 36-60. -/

/-- `^[\w-]{11}$` — the validation regex of the embed/v/e/watch rule. -/
def valid11 (l : List Char) : Bool :=
  l.length == 11 && l.all isIdChar

/-- Does the fallback regex `([A-Za-z0-9_-]{11})(?:\b|$)` match at the
start of `cs`?  Eleven id-class characters followed by the end of input or
by a word boundary (the boundary compares the word-ness of the 11th
character and the character after it). -/
def fbHere (cs : List Char) : Bool :=
  let tok := cs.take 11
  (tok.length == 11) && tok.all isIdChar &&
  (match cs.drop 11 with
   | [] => true
   | b :: _ =>
     match tok.getLast? with
     | some a => isWordChar a != isWordChar b
     | none => false)

/-- The raw regex fallback `String(url).match(/([A-Za-z0-9_-]{11})(?:\b|$)/)`
(lines 68 and 71): a JS regex without the `g` flag returns the match with
the leftmost starting position, so we scan start positions left to right. -/
def fbScan : List Char → Option (List Char)
  | [] => none
  | c :: rest => if fbHere (c :: rest) then some ((c :: rest).take 11) else fbScan rest

/-- Model of the parsed `URL` object: the components `extractVideoId`
reads.  `host` is the lowercased hostname, `pathname` starts with `/`,
`query` is the raw query string without the leading `?`. -/
structure URLRec where
  host : List Char
  pathname : List Char
  query : List Char
deriving DecidableEq

/-- Case-insensitive literal lead test (`pat` given in lowercase). -/
def matchesCI : List Char → List Char → Bool
  | [], _ => true
  | _ :: _, [] => false
  | p :: ps, c :: cs => Char.toLower c = p && matchesCI ps cs

/-- The part of `l` after the last occurrence of `sep` (used to strip the
userinfo section of a URL authority; `l` itself when `sep` is absent). -/
def afterLastSep (sep : Char) (l : List Char) : List Char :=
  (splitOnC sep l).getLast!

/-- Take until a stop character (exclusive). -/
def takeUntilC (stop : Char) (l : List Char) : List Char :=
  l.takeWhile (fun c => c != stop)

/-- Model of `new URL(s)` restricted to what the extractor needs: absolute
`http`/`https` URLs.  Returns `none` where the constructor would throw.
Deliberate simplifications (none affects a claim): percent-decoding is not
performed, special-scheme URLs with fewer than two slashes and exotic
authority forms (IPv6 literals, invalid ports) are not modelled, and
non-http(s) schemes are treated as parse failures — for such URLs the real
code reaches the same raw-regex fallback through the host tests instead of
the catch block. -/
def jsURLParse (s : List Char) : Option URLRec :=
  let afterScheme :=
    if matchesCI "https://".data s then some (s.drop 8)
    else if matchesCI "http://".data s then some (s.drop 7)
    else none
  match afterScheme with
  | none => none
  | some rest =>
    let notDelim : Char → Bool := fun c => c != '/' && c != '?' && c != '#'
    let auth := rest.takeWhile notDelim
    let after := rest.dropWhile notDelim
    let host := toLowerL (takeUntilC ':' (afterLastSep '@' auth))
    if host.isEmpty then none
    else
      match after with
      | [] => some ⟨host, "/".data, []⟩
      | c :: rest2 =>
        if c = '?' then some ⟨host, "/".data, takeUntilC '#' rest2⟩
        else if c = '#' then some ⟨host, "/".data, []⟩
        else
          let notQ : Char → Bool := fun d => d != '?' && d != '#'
          let path := after.takeWhile notQ
          let after2 := after.dropWhile notQ
          let query := match after2 with
            | '?' :: q => takeUntilC '#' q
            | _ => []
          some ⟨host, path, query⟩

/-- Helper for `searchParams.get`: scan `key=value` pairs for the first
matching key (a pair without `=` has value `""`). -/
def getParamAux (key : List Char) : List (List Char) → Option (List Char)
  | [] => none
  | pair :: rest =>
    let p := splitAtFirst '=' pair
    if p.1 = key then some (p.2.getD []) else getParamAux key rest

/-- `u.searchParams.get(key)` (percent-decoding not modelled). -/
def getParam (query key : List Char) : Option (List Char) :=
  getParamAux key (splitOnC '&' query)

/-- Line 53: `u.pathname.split("/")[1]?.slice(0, 11) || null`.  Note: no
validation beyond truncation to at most 11 characters. -/
def shortLinkId (pathname : List Char) : Option (List Char) :=
  match (splitOnC '/' pathname).get? 1 with
  | none => none
  | some seg => if seg.isEmpty then none else some (seg.take 11)

/-- Lines 57-59: find a `shorts` path segment and return the (truncated,
unvalidated) following segment if it is non-empty. -/
def shortsId (parts : List (List Char)) : Option (List Char) :=
  match parts.findIdx? (fun p => p == "shorts".data) with
  | none => none
  | some i =>
    match parts.get? (i + 1) with
    | some nxt => if nxt.isEmpty then none else some (nxt.take 11)
    | none => none

/-- The keyword set of the segment-scanning rule, line 60. -/
def kwList : List (List Char) := ["embed".data, "v".data, "e".data, "watch".data]

/-- Lines 61-66: scan adjacent segment pairs; when the first is a keyword
and the second is non-empty, return its 11-character truncation provided
it matches `^[\w-]{11}$`; otherwise keep scanning. -/
def embedScan : List (List Char) → Option (List Char)
  | [] => none
  | [_] => none
  | p :: nxt :: rest =>
    if kwList.contains p && !nxt.isEmpty then
      let id := nxt.take 11
      if valid11 id then some id else embedScan (nxt :: rest)
    else embedScan (nxt :: rest)

/-- Lines 55-66: the rules applied when the host contains `youtube.com`
(the `v` query parameter, then `shorts`, then embed/v/e/watch segments).
`none` falls through to the raw regex fallback. -/
def ytRules (u : URLRec) : Option (List Char) :=
  let parts := splitOnC '/' u.pathname
  match getParam u.query "v".data with
  | some v =>
    if !v.isEmpty && v.length == 11 then some v
    else match shortsId parts with
      | some x => some x
      | none => embedScan parts
  | none =>
    match shortsId parts with
    | some x => some x
    | none => embedScan parts

/-- `extractVideoId`, `src/unnamed/part_001` lines 50-74.  The `try` block
parses `String(url).trim()` as a URL; the catch branch and the
no-rule-matched fall-through both run the raw regex on the original
(untrimmed) input. -/
def extractVideoId (url : List Char) : Option (List Char) :=
  match jsURLParse (jsTrim url) with
  | none => fbScan url
  | some u =>
    if u.host = "youtu.be".data then shortLinkId u.pathname
    else if hasSub "youtube.com".data u.host then
      match ytRules u with
      | some id => some id
      | none => fbScan url
    else fbScan url

/-! ## Captions-API Client (`fetchText` / `tryTimedText`)

`src/unnamed/part_001` lines 76-113 (the wide language list); the
part_002 version at lines 62-100 is identical except for the shorter
default language list.  `fetchText` awaits `fetch`; a rejected promise
(network failure) propagates, which we model as the `thrown` outcome of
the per-call oracle.  Neither `fetchText` nor `tryTimedText` contains a
try/catch, so `thrown` escapes `tryTimedText` as `Except.error`. -/

/-- Outcome of one awaited `fetch`: either the promise rejected
(`thrown`), or a settled response `{ok, status, text}` as packaged by
`fetchText`. -/
structure FetchResp where
  ok : Bool
  status : Nat
  text : List Char
deriving DecidableEq

inductive FetchOutcome where
  | thrown : FetchOutcome
  | got : FetchResp → FetchOutcome
deriving DecidableEq

/-- One diagnostic entry pushed onto `reasons`: which kind of track
(uploaded vs ASR), which language tag, and the HTTP status.  The code
stores the formatted string; we keep the three fields it interpolates. -/
structure TTReason where
  asr : Bool
  lang : List Char
  status : Nat
deriving DecidableEq

/-- Tag identifying which stage/track produced a transcript (the code
uses strings such as `timedtext(en)`, `yt-dlp`, `whisper`). -/
inductive SourceTag where
  | timedtext : List Char → SourceTag
  | timedtextAsr : List Char → SourceTag
  | ytdlp : SourceTag
  | whisper : SourceTag
deriving DecidableEq

/-- The result object of `tryTimedText`: `{text, source}` on acceptance,
`{text: "", source: "", reasons}` on exhaustion (empty text, no source). -/
structure TTResult where
  text : List Char
  source : Option SourceTag
  reasons : List TTReason
deriving DecidableEq

/-- The wide language list of `src/unnamed/part_001` lines 16-21; the
trailing `""` means "no language parameter". -/
def LANGS : List (List Char) :=
  ["en".data, "en-US".data, "de".data, "fr".data, "es".data, "pt".data,
   "it".data, "pl".data, "nl".data, "sv".data, "no".data, "da".data,
   "fi".data, "ar".data, "tr".data, "fa".data, "ur".data, "hi".data,
   "bn".data, "ru".data, "uk".data, "cs".data, "ro".data, "el".data,
   "he".data, "ja".data, "ko".data, "zh".data, "zh-Hans".data,
   "zh-Hant".data, []]

/-- The ok-and-signature test `r.ok && r.text.includes("WEBVTT")` (its
failure is what pushes a diagnostic reason). -/
def ttSig (r : FetchResp) : Bool :=
  r.ok && hasSub "WEBVTT".data r.text

/-- Full acceptance: signature test plus normalized length above 30. -/
def ttAccept (r : FetchResp) : Bool :=
  ttSig r && decide (30 < (vttToText r.text).length)

/-- `tryTimedText`, lines 81-113.  `f` is the fetch oracle indexed by call
number (the `n`-th awaited `fetch` of this client); for each language the
code makes one uploaded-track query and one ASR query.  A response is
accepted when `r.ok && r.text.includes("WEBVTT")` and the normalized text
exceeds 30 characters; a response failing the ok/signature test pushes a
reason; an accepted-format but too-short text pushes nothing and moves
on.  A `thrown` fetch escapes as `Except.error` (no try/catch in the
source).  On exhaustion the collected reasons are returned with empty
text. -/
def tryTimedText (f : Nat → FetchOutcome) (n : Nat) : List (List Char) → Except Unit TTResult
  | [] => .ok ⟨[], none, []⟩
  | lang :: rest =>
    match f n with
    | .thrown => .error ()
    | .got r1 =>
      if ttAccept r1 then
        .ok ⟨vttToText r1.text, some (.timedtext lang), []⟩
      else
        let rs1 : List TTReason := if ttSig r1 then [] else [⟨false, lang, r1.status⟩]
        match f (n + 1) with
        | .thrown => .error ()
        | .got r2 =>
          if ttAccept r2 then
            .ok ⟨vttToText r2.text, some (.timedtextAsr lang), []⟩
          else
            let rs2 : List TTReason := if ttSig r2 then [] else [⟨true, lang, r2.status⟩]
            match tryTimedText f (n + 2) rest with
            | .error u => .error u
            | .ok res =>
              if res.text.isEmpty then .ok ⟨res.text, res.source, rs1 ++ rs2 ++ res.reasons⟩
              else .ok res

/-! ## Filesystem and subprocess model

Files are an association list of (path, content).  `readFile` succeeds
exactly when the path is present (`exists` in the source is implemented
via `readFile`), `rm {force:true}` never fails, and a yt-dlp invocation is
an oracle describing the error it reports and the files it leaves on disk
— the two are independent, as they are for the real tool (it can exit
non-zero after having produced output files, and vice versa). -/

abbrev FS : Type := List (String × List Char)

def lookupFS (p : String) : FS → Option (List Char)
  | [] => none
  | e :: r => if e.1 == p then some e.2 else lookupFS p r

def writeFile (p : String) (c : List Char) (fs : FS) : FS :=
  (p, c) :: fs.filter (fun e => e.1 != p)

def rmFile (p : String) (fs : FS) : FS :=
  fs.filter (fun e => e.1 != p)

def writeAll (fs : FS) (files : List (String × List Char)) : FS :=
  files.foldl (fun a pc => writeFile pc.1 pc.2 a) fs

/-- `safeCleanup(paths)`: best-effort removal of every listed path. -/
def cleanupAll (paths : List String) (fs : FS) : FS :=
  fs.filter (fun e => !(paths.contains e.1))

/-- The first-existing-candidate probe (`for (const p of candidates) if
(await exists(p)) ...`), returning the winning path with its content. -/
def probe : List String → FS → Option (String × List Char)
  | [], _ => none
  | p :: rest, fs =>
    match lookupFS p fs with
    | some c => some (p, c)
    | none => probe rest fs

/-- Result of one `sh("yt-dlp", args)` invocation: the error captured by
the `.catch` (if any) and the files the tool left on disk. -/
structure ShOut where
  err : Option (List Char)
  files : List (String × List Char)

/-! ## The full-variant request handler (`src/unnamed/part_001`)

Fixed stand-ins for the per-request random temp names. -/

def outBase : String := "/tmp/yt-subs0001"
def audioPath : String := "/tmp/yt-audio001.mp3"
def cookiePath1 : String := "/tmp/cookies-a.txt"
def cookiePath2 : String := "/tmp/cookies-b.txt"

/-- The candidate subtitle filenames of lines 174-184, in probe order. -/
def subsCandidates : List String :=
  ["/tmp/yt-subs0001.en.vtt", "/tmp/yt-subs0001.en-US.vtt",
   "/tmp/yt-subs0001.de.vtt", "/tmp/yt-subs0001.fr.vtt",
   "/tmp/yt-subs0001.es.vtt", "/tmp/yt-subs0001.pt.vtt",
   "/tmp/yt-subs0001.it.vtt", "/tmp/yt-subs0001.pl.vtt",
   "/tmp/yt-subs0001.nl.vtt", "/tmp/yt-subs0001.sv.vtt",
   "/tmp/yt-subs0001.no.vtt", "/tmp/yt-subs0001.da.vtt",
   "/tmp/yt-subs0001.fi.vtt", "/tmp/yt-subs0001.ar.vtt",
   "/tmp/yt-subs0001.tr.vtt", "/tmp/yt-subs0001.fa.vtt",
   "/tmp/yt-subs0001.ur.vtt", "/tmp/yt-subs0001.hi.vtt",
   "/tmp/yt-subs0001.bn.vtt", "/tmp/yt-subs0001.ru.vtt",
   "/tmp/yt-subs0001.uk.vtt", "/tmp/yt-subs0001.cs.vtt",
   "/tmp/yt-subs0001.ro.vtt", "/tmp/yt-subs0001.el.vtt",
   "/tmp/yt-subs0001.he.vtt", "/tmp/yt-subs0001.ja.vtt",
   "/tmp/yt-subs0001.ko.vtt", "/tmp/yt-subs0001.zh.vtt",
   "/tmp/yt-subs0001.zh-Hans.vtt", "/tmp/yt-subs0001.zh-Hant.vtt",
   "/tmp/yt-subs0001.vtt"]

/-- Environment (configuration + external-world oracles) of the
`src/unnamed/part_001` handler. -/
structure P1Env where
  token : List Char
  openaiKey : List Char
  cookiesB64 : List Char
  fetchTT : Nat → FetchOutcome
  shSubs : ShOut
  shAudio : ShOut
  whisper : FetchOutcome

/-- The request: `Authorization` header, `url` query value, `debug` flag. -/
structure Req where
  authHeader : Option (List Char)
  url : Option (List Char)
  debug : Bool

inductive ErrTag where
  | unauthorized : ErrTag
  | missingUrl : ErrTag
  | invalidUrl : ErrTag
  | noCaptions : ErrTag
  | toolFailed : ErrTag
  | tooShort : ErrTag
deriving DecidableEq

/-- The JSON response: status plus the fields the claims inspect.  The
`detail` string of the 500 body and the opt-in `debug` trail carry no
claim-relevant information and are omitted. -/
structure Resp where
  status : Nat
  text : Option (List Char)
  source : Option SourceTag
  error : Option ErrTag
deriving DecidableEq

/-- Externally observable interactions, recorded in request order: one
event per collaborator use (identifier extraction, the timedtext client,
each yt-dlp invocation, the Whisper upload). -/
inductive Ev where
  | extract : Ev
  | ttFetch : Ev
  | shSubsCall : Ev
  | shAudioCall : Ev
  | whisperCall : Ev
deriving DecidableEq

structure RunResult where
  resp : Resp
  fs : FS
  trace : List Ev

def bearerOf (tok : List Char) : List Char := "Bearer ".data ++ tok

/-- Lines 154-204: write the cookie file (when the env var is set), run
yt-dlp in subtitle mode, probe the candidate list on the resulting
filesystem, delete the cookie file, and on a hit read/normalize/cleanup —
returning the accepted text when it passes `text && text.length > 30`.
All candidate paths are cleaned up whether or not one was found. -/
def cookieWrite (b64 : List Char) (p : String) (fs : FS) : FS :=
  if b64.isEmpty then fs else writeFile p b64 fs

def cookieRm (b64 : List Char) (p : String) (fs : FS) : FS :=
  if b64.isEmpty then fs else rmFile p fs

def subsStage (env : P1Env) : FS × Option (List Char) :=
  let fs2 := writeAll (cookieWrite env.cookiesB64 cookiePath1 []) env.shSubs.files
  let found := probe subsCandidates fs2
  let fs3 := cookieRm env.cookiesB64 cookiePath1 fs2
  match found with
  | some pc =>
    let t := vttToText pc.2
    (cleanupAll subsCandidates fs3, if !t.isEmpty && decide (30 < t.length) then some t else none)
  | none => (cleanupAll subsCandidates fs3, none)

/-- Lines 213-255: write a second cookie file, run yt-dlp in audio mode,
delete the cookie file; if the tool reported no error and the audio file
exists, read its bytes, delete it, and upload to Whisper, accepting when
`resp.ok && stt && stt.trim().length > 30`.  A thrown Whisper fetch is
caught by the inner try/catch.  When the tool reported an error the
audio-file check is short-circuited (its file, if any, stays on disk). -/
def audioStage (env : P1Env) (fs : FS) : FS × Option (List Char) × List Ev :=
  let fs7 := cookieRm env.cookiesB64 cookiePath2
    (writeAll (cookieWrite env.cookiesB64 cookiePath2 fs) env.shAudio.files)
  match env.shAudio.err, lookupFS audioPath fs7 with
  | none, some _bytes =>
    let fs8 := rmFile audioPath fs7
    match env.whisper with
    | .thrown => (fs8, none, [.shAudioCall, .whisperCall])
    | .got r =>
      let t := jsTrim r.text
      (fs8, if r.ok && !r.text.isEmpty && decide (30 < t.length) then some t else none,
       [.shAudioCall, .whisperCall])
  | _, _ => (fs7, none, [.shAudioCall])

/-- The `GET /transcript` handler of `src/unnamed/part_001` lines 128-266:
auth check, url presence check, identifier extraction, then the fallback
chain (timedtext → yt-dlp subtitles → Whisper), with the top-level
try/catch mapping an escaped exception (a thrown timedtext fetch is the
only source of one in this model) to the 500 response. -/
def part001Run (env : P1Env) (req : Req) : RunResult :=
  if env.token ≠ [] ∧ req.authHeader.getD [] ≠ bearerOf env.token then
    ⟨⟨401, none, none, some .unauthorized⟩, [], []⟩
  else
    match req.url with
    | none => ⟨⟨400, none, none, some .missingUrl⟩, [], []⟩
    | some url =>
      if url.isEmpty then ⟨⟨400, none, none, some .missingUrl⟩, [], []⟩
      else
        match extractVideoId url with
        | none => ⟨⟨400, none, none, some .invalidUrl⟩, [], [.extract]⟩
        | some _vid =>
          match tryTimedText env.fetchTT 0 LANGS with
          | .error _ => ⟨⟨500, none, none, some .toolFailed⟩, [], [.extract, .ttFetch]⟩
          | .ok tt =>
            if !tt.text.isEmpty then
              ⟨⟨200, some tt.text, tt.source, none⟩, [], [.extract, .ttFetch]⟩
            else
              match (subsStage env).2 with
              | some t =>
                ⟨⟨200, some t, some .ytdlp, none⟩, (subsStage env).1,
                  [.extract, .ttFetch, .shSubsCall]⟩
              | none =>
                if env.openaiKey.isEmpty then
                  ⟨⟨422, none, none, some .noCaptions⟩, (subsStage env).1,
                    [.extract, .ttFetch, .shSubsCall]⟩
                else
                  match (audioStage env (subsStage env).1).2.1 with
                  | some t =>
                    ⟨⟨200, some t, some .whisper, none⟩, (audioStage env (subsStage env).1).1,
                      [.extract, .ttFetch, .shSubsCall] ++ (audioStage env (subsStage env).1).2.2⟩
                  | none =>
                    ⟨⟨422, none, none, some .noCaptions⟩, (audioStage env (subsStage env).1).1,
                      [.extract, .ttFetch, .shSubsCall] ++ (audioStage env (subsStage env).1).2.2⟩

/-! ## The simplest-variant request handler (`src/server.js`)

Lines 43-103: no identifier extraction, a three-language yt-dlp loop, the
simple normalizer, acceptance when `text.length >= 30` (the code rejects
only `< 30`), and a success body `{text}` with no source field. -/

def sjOutBase : String := "/tmp/yt-sj000001"

def sjCandidates : List String :=
  ["/tmp/yt-sj000001.en.vtt", "/tmp/yt-sj000001.en-US.vtt", "/tmp/yt-sj000001.vtt"]

structure SJEnv where
  token : List Char
  shS : Nat → ShOut

/-- Lines 60-85: per-language yt-dlp invocation (errors ignored), then the
candidate probe; the loop stops at the first language whose run leaves a
candidate file. -/
def sjLoop (env : SJEnv) (fs : FS) (j : Nat) : List (List Char) → FS × Option (String × List Char)
  | [] => (fs, none)
  | _lang :: rest =>
    let fs2 := writeAll fs (env.shS j).files
    match probe sjCandidates fs2 with
    | some pc => (fs2, some pc)
    | none => sjLoop env fs2 (j + 1) rest

def sjLangs : List (List Char) := ["en".data, "en-US".data, []]

/-- The `GET /transcript` handler of `src/server.js` lines 43-103. -/
def serverJsRun (env : SJEnv) (req : Req) : RunResult :=
  if env.token ≠ [] ∧ req.authHeader.getD [] ≠ bearerOf env.token then
    ⟨⟨401, none, none, some .unauthorized⟩, [], []⟩
  else
    match req.url with
    | none => ⟨⟨400, none, none, some .missingUrl⟩, [], []⟩
    | some url =>
      if url.isEmpty then ⟨⟨400, none, none, some .missingUrl⟩, [], []⟩
      else
        let r := sjLoop env [] 0 sjLangs
        match r.2 with
        | none => ⟨⟨422, none, none, some .noCaptions⟩, r.1, [.shSubsCall]⟩
        | some pc =>
          let text := vttToTextSimple pc.2
          let fs2 := cleanupAll sjCandidates r.1
          if text.isEmpty || decide (text.length < 30) then
            ⟨⟨422, none, none, some .tooShort⟩, fs2, [.shSubsCall]⟩
          else
            ⟨⟨200, some text, none, none⟩, fs2, [.shSubsCall]⟩

/-! ## Concrete environments and requests used by the closed theorems -/

/-- A standard valid request: no auth header, a short-link URL. -/
def reqStd : Req := ⟨none, some "https://youtu.be/dQw4w9WgXcQ".data, false⟩

/-- Every timedtext fetch rejects (network failure). -/
def envThrow : P1Env := ⟨[], [], [], fun _ => .thrown, ⟨none, []⟩, ⟨none, []⟩, .thrown⟩

/-- Every timedtext fetch settles with a 404 response. -/
def env404 : P1Env := ⟨[], [], [], fun _ => .got ⟨false, 404, []⟩, ⟨none, []⟩, ⟨none, []⟩, .thrown⟩

/-- Captions exhausted, Whisper configured; the audio yt-dlp invocation
reports an error yet still leaves the audio file on disk. -/
def envC3 : P1Env :=
  ⟨[], "k".data, [], fun _ => .got ⟨false, 404, []⟩, ⟨none, []⟩,
   ⟨some "boom".data, [(audioPath, "X".data)]⟩, .thrown⟩

/-- A server token is configured. -/
def envTok : P1Env := ⟨"s".data, [], [], fun _ => .thrown, ⟨none, []⟩, ⟨none, []⟩, .thrown⟩

/-- A well-formed caption document whose flattened text is long. -/
def goodVtt : List Char :=
  "WEBVTT\n00:00:00.000 --> 00:00:05.000\nhello there this is a long caption line".data

/-- Every timedtext fetch succeeds with the good caption document. -/
def fGood : Nat → FetchOutcome := fun _ => .got ⟨true, 200, goodVtt⟩

/-- The result `tryTimedText` produces under `fGood`. -/
def resGood : TTResult := ⟨vttToText goodVtt, some (.timedtext "en".data), []⟩

/-- part_001 environment in which the timedtext stage succeeds. -/
def envTTok : P1Env := ⟨[], [], [], fGood, ⟨none, []⟩, ⟨none, []⟩, .thrown⟩

/-- server.js environment: yt-dlp writes an `en` subtitle file with a long
caption line. -/
def envSJ4 : SJEnv :=
  ⟨[], fun _ => ⟨none, [("/tmp/yt-sj000001.en.vtt",
    "WEBVTT\nthis caption line has well over thirty characters in it".data)]⟩⟩

/-- server.js environment: the produced caption flattens to exactly 30
characters (29 letters and a trailing space). -/
def envSJ5 : SJEnv :=
  ⟨[], fun _ => ⟨none, [("/tmp/yt-sj000001.en.vtt",
    "WEBVTT\naaaaaaaaaaaaaaaaaaaaaaaaaaaaa ".data)]⟩⟩

/-- The idempotence counterexample: a well-formed cue document whose
payload line starts with a space and flattens to a pure digit run. -/
def vttCex : List Char := "WEBVTT\n\n1\n00:00:01.000 --> 00:00:02.000\n 42".data

/-- Two 11-character tokens separated by a space. -/
def twoTokens : List Char := "aaaaaaaaaaa bbbbbbbbbbb".data

/-! ## Lemmas about the normalizer

The key facts: `collapseWS` output contains no whitespace other than
single spaces, such a string is a fixpoint of `collapseWS`, and `jsTrim`
is idempotent.  Together they characterize reapplication of `vttToText`. -/

/-- Every whitespace character in the string is a plain space. -/
def wsOk (l : List Char) : Bool := l.all (fun c => c == ' ' || !(isWS c))

/-- No two adjacent whitespace characters; the flag says whether the
previous character (to the left of the list) was whitespace. -/
def noAdjF : Bool → List Char → Bool
  | _, [] => true
  | prev, c :: r => !(prev && isWS c) && noAdjF (isWS c) r

theorem collapse_wsOk : ∀ (l : List Char) (b : Bool), wsOk (collapseAux b l) = true := by
  intro l
  induction l with
  | nil => intro b; rfl
  | cons d rest ih =>
    intro b
    simp only [collapseAux]
    by_cases hd : isWS d = true
    · rw [if_pos hd]
      cases b
      · rw [if_neg Bool.false_ne_true]
        simp only [wsOk, List.all_cons, Bool.and_eq_true]
        exact And.intro (by decide) (ih true)
      · rw [if_pos rfl]
        exact ih true
    · rw [if_neg hd]
      simp only [wsOk, List.all_cons, Bool.and_eq_true]
      refine And.intro ?_ (ih false)
      simp [Bool.eq_false_iff.mpr hd]

theorem collapse_noAdj : ∀ (l : List Char) (b : Bool), noAdjF b (collapseAux b l) = true := by
  intro l
  induction l with
  | nil => intro b; rfl
  | cons d rest ih =>
    intro b
    simp only [collapseAux]
    by_cases hd : isWS d = true
    · rw [if_pos hd]
      cases b
      · simp only [if_neg Bool.false_ne_true, noAdjF]
        have : isWS ' ' = true := by decide
        simp [this, ih true]
      · simpa using ih true
    · rw [if_neg hd]
      simp only [noAdjF, Bool.eq_false_iff.mpr hd]
      simp [ih false]

theorem noAdjF_mono (l : List Char) (h : noAdjF true l = true) : noAdjF false l = true := by
  cases l with
  | nil => rfl
  | cons c r =>
    simp only [noAdjF, Bool.and_eq_true] at h ⊢
    exact And.intro (by simp) h.2

theorem collapse_fix : ∀ (l : List Char) (b : Bool), wsOk l = true → noAdjF b l = true →
    collapseAux b l = l := by
  intro l
  induction l with
  | nil => intro b _ _; rfl
  | cons c r ih =>
    intro b hw hn
    simp only [wsOk, List.all_cons, Bool.and_eq_true] at hw
    simp only [noAdjF, Bool.and_eq_true] at hn
    simp only [collapseAux]
    by_cases hc : isWS c = true
    · have hsp : c = ' ' := by
        have h1 := hw.1
        rw [hc] at h1
        simpa using h1
      have hb : b = false := by
        cases b
        · rfl
        · rw [hc] at hn
          simpa using hn.1
      have hn2 : noAdjF true r = true := by
        rw [hc] at hn
        exact hn.2
      rw [if_pos hc, hb]
      rw [if_neg Bool.false_ne_true]
      rw [ih true hw.2 hn2, hsp]
    · rw [if_neg hc]
      rw [Bool.eq_false_iff.mpr hc] at hn
      rw [ih false hw.2 hn.2]

theorem wsOk_dropWhile (l : List Char) (h : wsOk l = true) :
    wsOk (l.dropWhile isWS) = true := by
  induction l with
  | nil => simpa using h
  | cons c r ih =>
    simp only [wsOk, List.all_cons, Bool.and_eq_true] at h
    by_cases hc : isWS c = true
    · rw [List.dropWhile_cons_of_pos hc]
      exact ih h.2
    · rw [List.dropWhile_cons_of_neg (by simpa using hc)]
      simp only [wsOk, List.all_cons, Bool.and_eq_true]
      exact h

theorem noAdjF_dropWhile (l : List Char) (h : noAdjF false l = true) :
    noAdjF false (l.dropWhile isWS) = true := by
  induction l with
  | nil => simpa using h
  | cons c r ih =>
    simp only [noAdjF, Bool.and_eq_true] at h
    by_cases hc : isWS c = true
    · rw [List.dropWhile_cons_of_pos hc]
      rw [hc] at h
      exact ih (noAdjF_mono r h.2)
    · rw [List.dropWhile_cons_of_neg (by simpa using hc)]
      simp only [noAdjF, Bool.and_eq_true]
      rw [Bool.eq_false_iff.mpr hc] at h ⊢
      exact And.intro (by simp) h.2

theorem wsOk_trimEnd (l : List Char) (h : wsOk l = true) : wsOk (trimEnd l) = true := by
  induction l with
  | nil => simpa using h
  | cons c r ih =>
    simp only [wsOk, List.all_cons, Bool.and_eq_true] at h
    simp only [trimEnd]
    cases htr : trimEnd r with
    | nil =>
      by_cases hc : isWS c = true
      · rw [if_pos hc]; rfl
      · rw [if_neg hc]
        simp only [wsOk, List.all_cons]
        simp [h.1]
    | cons x xs =>
      have := ih h.2
      rw [htr] at this
      simp only [wsOk, List.all_cons, Bool.and_eq_true] at this ⊢
      exact And.intro h.1 this

theorem noAdjF_trimEnd : ∀ (l : List Char) (b : Bool), noAdjF b l = true →
    noAdjF b (trimEnd l) = true := by
  intro l
  induction l with
  | nil => intro b h; simpa using h
  | cons c r ih =>
    intro b h
    simp only [noAdjF, Bool.and_eq_true] at h
    simp only [trimEnd]
    cases htr : trimEnd r with
    | nil =>
      by_cases hc : isWS c = true
      · rw [if_pos hc]; rfl
      · rw [if_neg hc]
        simp only [noAdjF, Bool.and_true]
        exact h.1
    | cons x xs =>
      have := ih (isWS c) h.2
      rw [htr] at this
      simp only [noAdjF, Bool.and_eq_true] at this ⊢
      exact And.intro h.1 this

theorem trimEnd_head : ∀ (l : List Char) (x : Char) (xs : List Char),
    trimEnd l = x :: xs → ∃ r, l = x :: r := by
  intro l x xs h
  cases l with
  | nil => simp [trimEnd] at h
  | cons c r =>
    simp only [trimEnd] at h
    cases htr : trimEnd r with
    | nil =>
      rw [htr] at h
      by_cases hc : isWS c = true
      · rw [if_pos hc] at h; exact absurd h (by simp)
      · rw [if_neg hc] at h
        exact ⟨r, by rw [(List.cons.injEq .. ▸ h : c = x ∧ _).1]⟩
    | cons y ys =>
      rw [htr] at h
      exact ⟨r, by rw [(List.cons.injEq .. ▸ h : c = x ∧ _).1]⟩

theorem dropWhile_head_not : ∀ (l : List Char) (x : Char) (xs : List Char),
    l.dropWhile isWS = x :: xs → isWS x = false := by
  intro l
  induction l with
  | nil => intro x xs h; simp at h
  | cons c r ih =>
    intro x xs h
    by_cases hc : isWS c = true
    · rw [List.dropWhile_cons_of_pos hc] at h
      exact ih x xs h
    · rw [List.dropWhile_cons_of_neg (by simpa using hc)] at h
      have : c = x := (List.cons.injEq .. ▸ h : c = x ∧ _).1
      rw [← this]
      exact Bool.eq_false_iff.mpr hc

theorem trimEnd_idem : ∀ l : List Char, trimEnd (trimEnd l) = trimEnd l := by
  intro l
  induction l with
  | nil => rfl
  | cons c r ih =>
    cases htr : trimEnd r with
    | nil =>
      by_cases hc : isWS c = true
      · have e1 : trimEnd (c :: r) = [] := by
          simp only [trimEnd]
          rw [htr, if_pos hc]
        rw [e1]; rfl
      · have e1 : trimEnd (c :: r) = [c] := by
          simp only [trimEnd]
          rw [htr, if_neg hc]
        rw [e1]
        show (match trimEnd ([] : List Char) with
          | [] => if isWS c = true then [] else [c]
          | x :: xs => c :: x :: xs) = [c]
        rw [show trimEnd ([] : List Char) = [] from rfl, if_neg hc]
    | cons x xs =>
      have e1 : trimEnd (c :: r) = c :: x :: xs := by
        simp only [trimEnd]
        rw [htr]
      have h2 : trimEnd (x :: xs) = x :: xs := by
        have h3 := ih
        rw [htr] at h3
        exact h3
      rw [e1]
      show (match trimEnd (x :: xs) with
        | [] => if isWS c = true then [] else [c]
        | y :: ys => c :: y :: ys) = c :: x :: xs
      rw [h2]

theorem jsTrim_idem (l : List Char) : jsTrim (jsTrim l) = jsTrim l := by
  show trimEnd ((trimEnd (l.dropWhile isWS)).dropWhile isWS) = trimEnd (l.dropWhile isWS)
  have hdw : (trimEnd (l.dropWhile isWS)).dropWhile isWS = trimEnd (l.dropWhile isWS) := by
    cases hy : trimEnd (l.dropWhile isWS) with
    | nil => rfl
    | cons x xs =>
      obtain ⟨r, hr⟩ := trimEnd_head _ _ _ hy
      have hx : isWS x = false := dropWhile_head_not l x r hr
      exact List.dropWhile_cons_of_neg (by simp [hx])
  rw [hdw, trimEnd_idem]

/-- The output of `vttToText` is trim-stable. -/
theorem vtt_trim_fix (s : List Char) : jsTrim (vttToText s) = vttToText s :=
  jsTrim_idem _

theorem mem_collapseAux : ∀ (l : List Char) (b : Bool) (c : Char),
    c ∈ collapseAux b l → c = ' ' ∨ isWS c = false := by
  intro l
  induction l with
  | nil => intro b c h; simp [collapseAux] at h
  | cons d rest ih =>
    intro b c h
    simp only [collapseAux] at h
    by_cases hd : isWS d = true
    · rw [if_pos hd] at h
      cases b
      · rw [if_neg Bool.false_ne_true] at h
        rcases List.mem_cons.mp h with h1 | h1
        · exact Or.inl h1
        · exact ih true c h1
      · rw [if_pos rfl] at h
        exact ih true c h
    · rw [if_neg hd] at h
      rcases List.mem_cons.mp h with h1 | h1
      · exact Or.inr (h1 ▸ Bool.eq_false_iff.mpr hd)
      · exact ih false c h1

theorem mem_trimEnd : ∀ (l : List Char) (c : Char), c ∈ trimEnd l → c ∈ l := by
  intro l
  induction l with
  | nil => intro c h; simp [trimEnd] at h
  | cons d rest ih =>
    intro c h
    simp only [trimEnd] at h
    cases htr : trimEnd rest with
    | nil =>
      rw [htr] at h
      by_cases hd : isWS d = true
      · rw [if_pos hd] at h; simp at h
      · rw [if_neg hd] at h
        simp only [List.mem_singleton] at h
        exact h ▸ List.mem_cons_self d rest
    | cons x xs =>
      rw [htr] at h
      rcases List.mem_cons.mp h with h1 | h1
      · exact h1 ▸ List.mem_cons_self d rest
      · exact List.mem_cons_of_mem d (ih c (htr ▸ h1))

theorem mem_dropWhile : ∀ (l : List Char) (c : Char), c ∈ l.dropWhile isWS → c ∈ l := by
  intro l
  induction l with
  | nil => intro c h; simp at h
  | cons d rest ih =>
    intro c h
    by_cases hd : isWS d = true
    · rw [List.dropWhile_cons_of_pos hd] at h
      exact List.mem_cons_of_mem d (ih c h)
    · rw [List.dropWhile_cons_of_neg (by simpa using hd)] at h
      exact h

/-- Characters of the normalized text: only plain spaces or
non-whitespace; in particular no CR and no LF survives normalization. -/
theorem vtt_chars (s : List Char) (c : Char) (h : c ∈ vttToText s) :
    c = ' ' ∨ isWS c = false := by
  have h1 : c ∈ collapseWS (joinSp (((splitOnC '\n' (stripCR s))).filter keepLine)) :=
    mem_dropWhile _ c (mem_trimEnd _ c h)
  exact mem_collapseAux _ false c h1

theorem splitOnC_single : ∀ (sep : Char) (l : List Char), (∀ c ∈ l, c ≠ sep) →
    splitOnC sep l = [l] := by
  intro sep l
  induction l with
  | nil => intro _; rfl
  | cons c r ih =>
    intro h
    have hr : splitOnC sep r = [r] := ih (fun x hx => h x (List.mem_cons_of_mem c hx))
    simp only [splitOnC, hr]
    rw [if_neg (h c (List.mem_cons_self c r))]

theorem stripCR_id (l : List Char) (h : ∀ c ∈ l, c ≠ '\r') : stripCR l = l := by
  unfold stripCR
  induction l with
  | nil => rfl
  | cons c r ih =>
    rw [List.filter_cons]
    rw [if_pos (by simpa using h c (List.mem_cons_self c r))]
    rw [ih (fun x hx => h x (List.mem_cons_of_mem c hx))]

/-- `wsOk` and `noAdjF` hold of normalized text. -/
theorem vtt_wsOk (s : List Char) : wsOk (vttToText s) = true := by
  unfold vttToText jsTrim
  exact wsOk_trimEnd _ (wsOk_dropWhile _ (collapse_wsOk _ false))

theorem vtt_noAdj (s : List Char) : noAdjF false (vttToText s) = true := by
  unfold vttToText jsTrim
  exact noAdjF_trimEnd _ false (noAdjF_dropWhile _ (collapse_noAdj _ false))

/-- Reapplying the normalizer to its own output either leaves it unchanged
(when the flattened text passes the line filter) or collapses it to the
empty string (when flattening exposed a droppable pattern — the source of
the idempotence failure). -/
theorem vtt_stable (s : List Char) :
    vttToText (vttToText s) = vttToText s ∨ vttToText (vttToText s) = [] := by
  set y := vttToText s with hy
  have hnr : ∀ c ∈ y, c ≠ '\r' := by
    intro c hc hcr
    rcases vtt_chars s c hc with h | h
    · rw [hcr] at h; exact absurd h (by decide)
    · rw [hcr] at h; exact absurd h (by decide)
  have hnn : ∀ c ∈ y, c ≠ '\n' := by
    intro c hc hcn
    rcases vtt_chars s c hc with h | h
    · rw [hcn] at h; exact absurd h (by decide)
    · rw [hcn] at h; exact absurd h (by decide)
  have e1 : stripCR y = y := stripCR_id y hnr
  have e2 : splitOnC '\n' y = [y] := splitOnC_single '\n' y hnn
  by_cases hk : keepLine y = true
  · left
    have e3 : (splitOnC '\n' (stripCR y)).filter keepLine = [y] := by
      rw [e1, e2]
      simp [List.filter_cons, hk]
    have e4 : joinSp [y] = y := rfl
    have e5 : collapseWS y = y := collapse_fix y false (vtt_wsOk s) (vtt_noAdj s)
    have e6 : jsTrim y = y := by
      rw [hy]
      show jsTrim (jsTrim (collapseWS (joinSp (((splitOnC '\n' (stripCR s))).filter keepLine)))) =
        jsTrim (collapseWS (joinSp (((splitOnC '\n' (stripCR s))).filter keepLine)))
      exact jsTrim_idem _
    show jsTrim (collapseWS (joinSp ((splitOnC '\n' (stripCR y)).filter keepLine))) = y
    rw [e3, e4, e5, e6]
  · right
    have e3 : (splitOnC '\n' (stripCR y)).filter keepLine = [] := by
      rw [e1, e2]
      simp [List.filter_cons, hk]
    show jsTrim (collapseWS (joinSp ((splitOnC '\n' (stripCR y)).filter keepLine))) = []
    rw [e3]
    rfl

/-! ## Lemmas about the Captions-API Client -/

/-- Any accepted timedtext result carries a source tag and comes verbatim
from a fetched response that passed all three checks: HTTP success, the
`WEBVTT` signature, and normalized length above 30. -/
theorem tt_accept_spec : ∀ (f : Nat → FetchOutcome) (langs : List (List Char)) (n : Nat)
    (res : TTResult), tryTimedText f n langs = .ok res → res.text ≠ [] →
    res.source.isSome = true ∧ 30 < res.text.length ∧ jsTrim res.text = res.text ∧
    ∃ m r, f m = .got r ∧ ttAccept r = true ∧ res.text = vttToText r.text := by
  intro f langs
  induction langs with
  | nil =>
    intro n res h hne
    simp only [tryTimedText] at h
    have hres := Except.ok.inj h
    rw [← hres] at hne
    exact absurd rfl hne
  | cons lang rest ih =>
    intro n res h hne
    cases hf1 : f n with
    | thrown =>
      simp only [tryTimedText, hf1] at h
      exact Except.noConfusion h
    | got r1 =>
      simp only [tryTimedText, hf1] at h
      by_cases hc1 : ttAccept r1 = true
      · rw [if_pos hc1] at h
        have hres := Except.ok.inj h
        subst hres
        have hlen : 30 < (vttToText r1.text).length := by
          have h2 := hc1
          unfold ttAccept at h2
          simp only [Bool.and_eq_true, decide_eq_true_eq] at h2
          exact h2.2
        exact ⟨rfl, hlen, vtt_trim_fix r1.text, n, r1, hf1, hc1, rfl⟩
      · rw [if_neg hc1] at h
        cases hf2 : f (n + 1) with
        | thrown =>
          simp only [hf2] at h
          exact Except.noConfusion h
        | got r2 =>
          simp only [hf2] at h
          by_cases hc2 : ttAccept r2 = true
          · rw [if_pos hc2] at h
            have hres := Except.ok.inj h
            subst hres
            have hlen : 30 < (vttToText r2.text).length := by
              have h2 := hc2
              unfold ttAccept at h2
              simp only [Bool.and_eq_true, decide_eq_true_eq] at h2
              exact h2.2
            exact ⟨rfl, hlen, vtt_trim_fix r2.text, n + 1, r2, hf2, hc2, rfl⟩
          · rw [if_neg hc2] at h
            cases hrec : tryTimedText f (n + 2) rest with
            | error u =>
              simp only [hrec] at h
              exact Except.noConfusion h
            | ok res2 =>
              simp only [hrec] at h
              by_cases hemp : res2.text.isEmpty = true
              · rw [if_pos hemp] at h
                have hres := Except.ok.inj h
                have hne2 : res2.text ≠ [] := by
                  rw [← hres] at hne
                  exact hne
                exact absurd (List.isEmpty_iff.mp hemp) hne2
              · rw [if_neg hemp] at h
                have hres := Except.ok.inj h
                subst hres
                exact ih (n + 2) res2 hrec (fun he => hemp (by rw [he]; rfl))

/-- When no individual fetch throws, `tryTimedText` always returns
normally (`Except.ok`), whatever the responses contain. -/
theorem tt_nothrow_ok : ∀ (f : Nat → FetchOutcome), (∀ m, f m ≠ .thrown) →
    ∀ (langs : List (List Char)) (n : Nat), ∃ res, tryTimedText f n langs = .ok res := by
  intro f hf langs
  induction langs with
  | nil => intro n; exact ⟨⟨[], none, []⟩, rfl⟩
  | cons lang rest ih =>
    intro n
    cases hf1 : f n with
    | thrown => exact absurd hf1 (hf n)
    | got r1 =>
      simp only [tryTimedText, hf1]
      by_cases hc1 : ttAccept r1 = true
      · rw [if_pos hc1]; exact ⟨_, rfl⟩
      · rw [if_neg hc1]
        cases hf2 : f (n + 1) with
        | thrown => exact absurd hf2 (hf (n + 1))
        | got r2 =>
          simp only [hf2]
          by_cases hc2 : ttAccept r2 = true
          · rw [if_pos hc2]; exact ⟨_, rfl⟩
          · rw [if_neg hc2]
            obtain ⟨res2, hres2⟩ := ih (n + 2)
            simp only [hres2]
            by_cases hemp : res2.text.isEmpty = true
            · rw [if_pos hemp]; exact ⟨_, rfl⟩
            · rw [if_neg hemp]; exact ⟨_, rfl⟩

/-! ## Lemmas about the filesystem model and handler stages -/

theorem mem_writeFile {e : String × List Char} {p : String} {c : List Char} {fs : FS}
    (h : e ∈ writeFile p c fs) : e = (p, c) ∨ e ∈ fs := by
  unfold writeFile at h
  rcases List.mem_cons.mp h with h1 | h1
  · exact Or.inl h1
  · exact Or.inr (List.mem_filter.mp h1).1

theorem mem_writeAll : ∀ (files : List (String × List Char)) (fs : FS) (e : String × List Char),
    e ∈ writeAll fs files → e ∈ fs ∨ e ∈ files := by
  intro files
  induction files with
  | nil => intro fs e h; exact Or.inl h
  | cons pc rest ih =>
    intro fs e h
    have h2 : e ∈ writeAll (writeFile pc.1 pc.2 fs) rest := h
    rcases ih _ e h2 with h3 | h3
    · rcases mem_writeFile h3 with h4 | h4
      · exact Or.inr (by rw [h4]; exact List.mem_cons_self _ _)
      · exact Or.inl h4
    · exact Or.inr (List.mem_cons_of_mem pc h3)

theorem mem_rmFile {e : String × List Char} {p : String} {fs : FS}
    (h : e ∈ rmFile p fs) : e ∈ fs ∧ e.1 ≠ p := by
  unfold rmFile at h
  have h2 := List.mem_filter.mp h
  exact ⟨h2.1, by simpa using h2.2⟩

theorem cleanupAll_nil {paths : List String} {fs : FS}
    (h : ∀ e ∈ fs, paths.contains e.1 = true) : cleanupAll paths fs = [] := by
  unfold cleanupAll
  rw [List.filter_eq_nil_iff]
  intro e he
  simp only [Bool.not_eq_true', Bool.not_eq_false]
  exact h e he

/-- Entries surviving a cookie-write / tool-write / cookie-remove cycle
come from the original filesystem or from the tool's files. -/
theorem cookie_entries (b64 : List Char) (p : String) (files : List (String × List Char))
    (fs0 : FS) : ∀ e ∈ cookieRm b64 p (writeAll (cookieWrite b64 p fs0) files),
    e ∈ fs0 ∨ e ∈ files := by
  intro e he
  by_cases hck : b64.isEmpty = true
  · unfold cookieRm at he
    rw [if_pos hck] at he
    rcases mem_writeAll _ _ _ he with h1 | h1
    · unfold cookieWrite at h1
      rw [if_pos hck] at h1
      exact Or.inl h1
    · exact Or.inr h1
  · unfold cookieRm at he
    rw [if_neg hck] at he
    obtain ⟨he2, hne⟩ := mem_rmFile he
    rcases mem_writeAll _ _ _ he2 with h1 | h1
    · unfold cookieWrite at h1
      rw [if_neg hck] at h1
      rcases mem_writeFile h1 with h2 | h2
      · exact absurd (by rw [h2]) hne
      · exact Or.inl h2
    · exact Or.inr h1

/-- When the subtitle invocation writes only candidate-named files, the
subtitle stage leaves the filesystem empty: the cookie file is removed
explicitly and `safeCleanup(candidates)` removes everything else. -/
theorem subsStage_fs (env : P1Env)
    (hs : env.shSubs.files.all (fun pc => subsCandidates.contains pc.1) = true) :
    (subsStage env).1 = [] := by
  have hs2 : ∀ pc ∈ env.shSubs.files, subsCandidates.contains pc.1 = true :=
    List.all_eq_true.mp hs
  have hall : ∀ e ∈ cookieRm env.cookiesB64 cookiePath1
      (writeAll (cookieWrite env.cookiesB64 cookiePath1 []) env.shSubs.files),
      subsCandidates.contains e.1 = true := by
    intro e he
    rcases cookie_entries _ _ _ _ e he with h1 | h1
    · simp at h1
    · exact hs2 e h1
  unfold subsStage
  cases hpr : probe subsCandidates (writeAll (cookieWrite env.cookiesB64 cookiePath1 []) env.shSubs.files) with
  | some pc =>
    simp only [hpr]
    exact cleanupAll_nil hall
  | none =>
    simp only [hpr]
    exact cleanupAll_nil hall

/-- When the audio invocation writes only the audio path and the incoming
filesystem holds at most the audio path, every file left by the audio
stage is the audio path (the genuinely reachable leak). -/
theorem audioStage_fs (env : P1Env) (fs : FS)
    (ha : env.shAudio.files.all (fun pc => pc.1 == audioPath) = true)
    (hfs : ∀ e ∈ fs, e.1 = audioPath) :
    ∀ e ∈ (audioStage env fs).1, e.1 = audioPath := by
  have ha2 : ∀ pc ∈ env.shAudio.files, pc.1 = audioPath := by
    intro pc hpc
    exact beq_iff_eq.mp (List.all_eq_true.mp ha pc hpc)
  have h7 : ∀ x ∈ cookieRm env.cookiesB64 cookiePath2
      (writeAll (cookieWrite env.cookiesB64 cookiePath2 fs) env.shAudio.files),
      x.1 = audioPath := by
    intro x hx
    rcases cookie_entries _ _ _ _ x hx with h1 | h1
    · exact hfs x h1
    · exact ha2 x h1
  intro e he
  unfold audioStage at he
  cases herr : env.shAudio.err with
  | some e2 =>
    simp only [herr] at he
    exact h7 e he
  | none =>
    cases hlk : lookupFS audioPath (cookieRm env.cookiesB64 cookiePath2
        (writeAll (cookieWrite env.cookiesB64 cookiePath2 fs) env.shAudio.files)) with
    | none =>
      simp only [herr, hlk] at he
      exact h7 e he
    | some bytes =>
      simp only [herr, hlk] at he
      cases hw : env.whisper with
      | thrown =>
        simp only [hw] at he
        exact h7 e (mem_rmFile he).1
      | got r =>
        simp only [hw] at he
        exact h7 e (mem_rmFile he).1

/-- A subtitle-stage acceptance is normalized text that exceeded the
30-character threshold (and is therefore trim-stable). -/
theorem subsStage_accept (env : P1Env) (t : List Char)
    (h : (subsStage env).2 = some t) : 30 < t.length ∧ jsTrim t = t := by
  unfold subsStage at h
  cases hpr : probe subsCandidates (writeAll (cookieWrite env.cookiesB64 cookiePath1 []) env.shSubs.files) with
  | none =>
    simp only [hpr] at h
    exact absurd h (by simp)
  | some pc =>
    simp only [hpr] at h
    by_cases hacc : (!(vttToText pc.2).isEmpty && decide (30 < (vttToText pc.2).length)) = true
    · rw [if_pos hacc] at h
      have ht : vttToText pc.2 = t := Option.some.inj h
      simp only [Bool.and_eq_true, decide_eq_true_eq] at hacc
      exact ⟨ht ▸ hacc.2, ht ▸ vtt_trim_fix pc.2⟩
    · rw [if_neg hacc] at h
      exact absurd h (by simp)

/-- An audio-stage acceptance is Whisper text whose trimmed form exceeded
the 30-character threshold; the stage returns the trimmed text. -/
theorem audioStage_accept (env : P1Env) (fs : FS) (t : List Char)
    (h : (audioStage env fs).2.1 = some t) : 30 < t.length ∧ jsTrim t = t := by
  unfold audioStage at h
  cases herr : env.shAudio.err with
  | some e2 =>
    simp only [herr] at h
    exact absurd h (by simp)
  | none =>
    cases hlk : lookupFS audioPath (cookieRm env.cookiesB64 cookiePath2
        (writeAll (cookieWrite env.cookiesB64 cookiePath2 fs) env.shAudio.files)) with
    | none =>
      simp only [herr, hlk] at h
      exact absurd h (by simp)
    | some bytes =>
      simp only [herr, hlk] at h
      cases hw : env.whisper with
      | thrown =>
        simp only [hw] at h
        exact absurd h (by simp)
      | got r =>
        simp only [hw] at h
        by_cases hacc : (r.ok && !r.text.isEmpty && decide (30 < (jsTrim r.text).length)) = true
        · rw [if_pos hacc] at h
          have ht : jsTrim r.text = t := Option.some.inj h
          simp only [Bool.and_eq_true, decide_eq_true_eq] at hacc
          exact ⟨ht ▸ hacc.2, ht ▸ jsTrim_idem r.text⟩
        · rw [if_neg hacc] at h
          exact absurd h (by simp)

/-! ## Lemmas about the raw regex fallback

The declarative counterpart of `fbHere`: position `i` starts an
11-character id-class run followed by the end of the input or by a word
boundary. -/

def QualAt (cs : List Char) (i : Nat) : Prop :=
  ∃ pre tok rest, cs = pre ++ tok ++ rest ∧ pre.length = i ∧ tok.length = 11 ∧
    tok.all isIdChar = true ∧
    (rest = [] ∨ ∃ b brest a, rest = b :: brest ∧ tok.getLast? = some a ∧
      isWordChar a ≠ isWordChar b)

theorem fbHere_iff (cs : List Char) : fbHere cs = true ↔ QualAt cs 0 := by
  constructor
  · intro h
    simp only [fbHere, Bool.and_eq_true] at h
    obtain ⟨⟨h1, h2⟩, h3⟩ := h
    refine ⟨[], cs.take 11, cs.drop 11, by simp, rfl, beq_iff_eq.mp h1, h2, ?_⟩
    cases hd : cs.drop 11 with
    | nil => exact Or.inl rfl
    | cons b brest =>
      rw [hd] at h3
      cases hl : (cs.take 11).getLast? with
      | none => rw [hl] at h3; exact absurd h3 (by simp)
      | some a =>
        rw [hl] at h3
        exact Or.inr ⟨b, brest, a, rfl, rfl, bne_iff_ne.mp h3⟩
  · intro h
    obtain ⟨pre, tok, rest, hcs, hpre, htok, hall, hb⟩ := h
    have hpre2 : pre = [] := List.length_eq_zero.mp hpre
    subst hpre2
    simp only [List.nil_append] at hcs
    subst hcs
    have htk : (tok ++ rest).take 11 = tok := by
      rw [← htok]
      exact List.take_left tok rest
    have hdr : (tok ++ rest).drop 11 = rest := by
      rw [← htok]
      exact List.drop_left tok rest
    simp only [fbHere, Bool.and_eq_true, htk, hdr]
    refine ⟨⟨by simp [htok], hall⟩, ?_⟩
    rcases hb with hb | ⟨b, brest, a, hrest, hlast, hne⟩
    · rw [hb]
    · rw [hrest, hlast]
      exact bne_iff_ne.mpr hne

theorem QualAt_shift (c : Char) (cs : List Char) (i : Nat) :
    QualAt (c :: cs) (i + 1) ↔ QualAt cs i := by
  constructor
  · intro h
    obtain ⟨pre, tok, rest, hcs, hpre, htok, hall, hb⟩ := h
    cases pre with
    | nil => exact absurd hpre (by simp)
    | cons p0 pre2 =>
      simp only [List.cons_append] at hcs
      rw [List.cons.injEq] at hcs
      refine ⟨pre2, tok, rest, hcs.2, ?_, htok, hall, hb⟩
      simpa using hpre
  · intro h
    obtain ⟨pre, tok, rest, hcs, hpre, htok, hall, hb⟩ := h
    exact ⟨c :: pre, tok, rest, by rw [hcs]; rfl, by simpa using hpre, htok, hall, hb⟩

/-! ## Claims -/

/-- C2 counterexample: the short-link rule succeeds on
`https://youtu.be/abc` and returns the 3-character token `abc`, which does
not match `^[A-Za-z0-9_-]{11}$`; the raw regex fallback finds nothing in
this input, so the token can only have come from the URL-based rule. -/
theorem C2_counterexample :
    extractVideoId "https://youtu.be/abc".data = some "abc".data ∧
    valid11 "abc".data = false ∧
    fbScan "https://youtu.be/abc".data = none := by
  refine ⟨by decide, by decide, by decide⟩

/-- C2 (amended): only the embed/v/e/watch segment rule validates the full
token pattern — every token it returns matches `^[A-Za-z0-9_-]{11}$`.  The
short-link and shorts rules merely truncate to at most 11 characters and
can return shorter or differently-charactered tokens (see the
counterexample), and the `v`-parameter rule checks length but not the
character class. -/
theorem C2_amended : ∀ (parts : List (List Char)) (id : List Char),
    embedScan parts = some id → valid11 id = true := by
  intro parts
  induction parts with
  | nil => intro id h; exact absurd h (by simp [embedScan])
  | cons p rest ih =>
    intro id h
    cases rest with
    | nil => exact absurd h (by simp [embedScan])
    | cons nxt rest2 =>
      simp only [embedScan] at h
      by_cases hkw : (kwList.contains p && !nxt.isEmpty) = true
      · rw [if_pos hkw] at h
        by_cases hv : valid11 (nxt.take 11) = true
        · rw [if_pos hv] at h
          rw [← Option.some.inj h]
          exact hv
        · rw [if_neg hv] at h
          exact ih id h
      · rw [if_neg hkw] at h
        exact ih id h

/-- C2 witness: the embed rule fires on `/embed/dQw4w9WgXcQ` and its token
is valid. -/
theorem C2_witness :
    embedScan [[], "embed".data, "dQw4w9WgXcQ".data] = some "dQw4w9WgXcQ".data ∧
    valid11 "dQw4w9WgXcQ".data = true :=
  ⟨by decide, C2_amended [[], "embed".data, "dQw4w9WgXcQ".data] "dQw4w9WgXcQ".data (by decide)⟩

/-- C6: the Captions-API Client accepts a timed-text response only when
the HTTP status is a success, the body contains the `WEBVTT` signature,
and the normalized text exceeds 30 characters: any non-empty result of
`tryTimedText` is the normalization of some fetched response satisfying
all three conditions.  In particular a response without the signature is
never the accepted one, regardless of its HTTP status. -/
theorem C6_accept_conditions (f : Nat → FetchOutcome) (langs : List (List Char)) (n : Nat)
    (res : TTResult) (h : tryTimedText f n langs = .ok res) (hne : res.text ≠ []) :
    ∃ m r, f m = .got r ∧ r.ok = true ∧ hasSub "WEBVTT".data r.text = true ∧
      30 < (vttToText r.text).length ∧ res.text = vttToText r.text := by
  obtain ⟨_, _, _, m, r, hf, hacc, heq⟩ := tt_accept_spec f langs n res h hne
  have hacc2 := hacc
  unfold ttAccept ttSig at hacc2
  simp only [Bool.and_eq_true, decide_eq_true_eq] at hacc2
  exact ⟨m, r, hf, hacc2.1.1, hacc2.1.2, hacc2.2, heq⟩

/-- C6 witness: a concrete accepting run. -/
theorem C6_witness :
    tryTimedText fGood 0 ["en".data] = .ok resGood ∧ resGood.text ≠ [] ∧
    ∃ m r, fGood m = .got r ∧ r.ok = true ∧ hasSub "WEBVTT".data r.text = true ∧
      30 < (vttToText r.text).length ∧ resGood.text = vttToText r.text :=
  ⟨rfl, by decide, C6_accept_conditions fGood ["en".data] 0 resGood rfl (by decide)⟩

/-- C8 counterexample: on the well-formed cue document
`"WEBVTT\n\n1\n00:00:01.000 --> 00:00:02.000\n 42"` the normalizer yields
`"42"`, and a second application drops that as a pure digit line, so
`normalize (normalize x) ≠ normalize x`. -/
theorem C8_counterexample : vttToText (vttToText vttCex) ≠ vttToText vttCex := by decide

/-- C8 (amended): the part_001 normalizer is not idempotent — trimming
and collapsing can expose a droppable prefix (header, digit run or
timestamp) in the flattened output, as in the counterexample — but it
stabilizes after one reapplication: a third application always equals the
second, and reapplying never raises an error (the function is total). -/
theorem C8_amended (s : List Char) :
    vttToText (vttToText (vttToText s)) = vttToText (vttToText s) := by
  rcases vtt_stable s with h | h
  · rw [h]
    exact h
  · rw [h]
    rfl

/-- C9 counterexample: on `https://youtu.be//dQw4w9WgXcQ` the short-link
rule fails to match (empty first path segment) and the extractor returns
null directly, even though the raw regex fallback would have found a
token — so a non-matching rule does not always degrade to the fallback. -/
theorem C9_counterexample :
    extractVideoId "https://youtu.be//dQw4w9WgXcQ".data = none ∧
    fbScan "https://youtu.be//dQw4w9WgXcQ".data = some "dQw4w9WgXcQ".data := by
  refine ⟨by decide, by decide⟩

/-- C9 (amended): the extractor is total — it always returns a token or
null and never throws (every outcome of the URL parse is handled) — and
every URL-parse failure degrades to the raw regex fallback.  A
non-matching rule inside the short-link branch, however, returns null
without consulting the fallback (see the counterexample). -/
theorem C9_amended (s : List Char) (h : jsURLParse (jsTrim s) = none) :
    extractVideoId s = fbScan s := by
  unfold extractVideoId
  rw [h]

/-- C9 witness: a non-URL input takes the parse-failure path to the
fallback. -/
theorem C9_witness :
    jsURLParse (jsTrim "not a url at all".data) = none ∧
    extractVideoId "not a url at all".data = fbScan "not a url at all".data :=
  ⟨by decide, C9_amended _ (by decide)⟩

/-- C10: the raw regex fallback returns exactly the leftmost 11-character
id-class run that is followed by a word boundary or the end of the input:
any returned token sits at a qualifying position no earlier position
qualifies — so with two or more such tokens present, the first one is
returned, whatever the input looks like. -/
theorem C10_fallback_leftmost : ∀ (cs : List Char) (t : List Char), fbScan cs = some t →
    ∃ i, QualAt cs i ∧ t = (cs.drop i).take 11 ∧ ∀ j, j < i → ¬ QualAt cs j := by
  intro cs
  induction cs with
  | nil => intro t h; exact absurd h (by simp [fbScan])
  | cons c rest ih =>
    intro t h
    simp only [fbScan] at h
    by_cases hf : fbHere (c :: rest) = true
    · rw [if_pos hf] at h
      refine ⟨0, (fbHere_iff _).mp hf, ?_, fun j hj => absurd hj (Nat.not_lt_zero j)⟩
      rw [← Option.some.inj h]
      rfl
    · rw [if_neg hf] at h
      obtain ⟨i, hq, ht, hmin⟩ := ih t h
      refine ⟨i + 1, (QualAt_shift c rest i).mpr hq, by simpa using ht, ?_⟩
      intro j hj
      cases j with
      | zero => exact fun hq0 => hf ((fbHere_iff _).mpr hq0)
      | succ k =>
        intro hqk
        exact hmin k (Nat.lt_of_succ_lt_succ hj) ((QualAt_shift c rest k).mp hqk)

/-- C10 witness: with two tokens present, the first is returned. -/
theorem C10_witness :
    fbScan twoTokens = some "aaaaaaaaaaa".data ∧
    ∃ i, QualAt twoTokens i ∧ "aaaaaaaaaaa".data = (twoTokens.drop i).take 11 ∧
      ∀ j, j < i → ¬ QualAt twoTokens j :=
  ⟨by decide, C10_fallback_leftmost twoTokens "aaaaaaaaaaa".data (by decide)⟩

/-! ## Case analysis of the part_001 handler -/

/-- Every run of the part_001 handler falls in one of four classes: a
timedtext success, a yt-dlp subtitle success, a Whisper success, or a
non-200 outcome; in each class the response and final filesystem are
pinned down, and a 500 can only arise from a thrown timedtext fetch. -/
theorem part001_cases (env : P1Env) (req : Req) :
    (∃ tt, tryTimedText env.fetchTT 0 LANGS = .ok tt ∧ tt.text ≠ [] ∧
      (part001Run env req).resp = ⟨200, some tt.text, tt.source, none⟩ ∧
      (part001Run env req).fs = []) ∨
    (∃ t, (subsStage env).2 = some t ∧
      (part001Run env req).resp = ⟨200, some t, some .ytdlp, none⟩ ∧
      (part001Run env req).fs = (subsStage env).1) ∨
    (∃ t, (audioStage env (subsStage env).1).2.1 = some t ∧
      (part001Run env req).resp = ⟨200, some t, some .whisper, none⟩ ∧
      (part001Run env req).fs = (audioStage env (subsStage env).1).1) ∨
    ((part001Run env req).resp.status ≠ 200 ∧ (part001Run env req).resp.text = none ∧
      ((part001Run env req).fs = [] ∨ (part001Run env req).fs = (subsStage env).1 ∨
        (part001Run env req).fs = (audioStage env (subsStage env).1).1) ∧
      ((part001Run env req).resp.status = 500 → tryTimedText env.fetchTT 0 LANGS = .error ())) := by
  unfold part001Run
  by_cases hauth : env.token ≠ [] ∧ req.authHeader.getD [] ≠ bearerOf env.token
  · rw [if_pos hauth]
    right; right; right
    dsimp only
    exact ⟨(by decide : (401 : Nat) ≠ 200), rfl, Or.inl rfl,
      fun hc => absurd hc (by decide : ¬(401 : Nat) = 500)⟩
  · rw [if_neg hauth]
    cases hurl : req.url with
    | none =>
      right; right; right
      dsimp only
      exact ⟨(by decide : (400 : Nat) ≠ 200), rfl, Or.inl rfl,
        fun hc => absurd hc (by decide : ¬(400 : Nat) = 500)⟩
    | some url =>
      dsimp only
      by_cases hemp : url.isEmpty = true
      · rw [if_pos hemp]
        right; right; right
        exact ⟨(by decide : (400 : Nat) ≠ 200), rfl, Or.inl rfl,
          fun hc => absurd hc (by decide : ¬(400 : Nat) = 500)⟩
      · rw [if_neg hemp]
        cases hex : extractVideoId url with
        | none =>
          right; right; right
          dsimp only
          exact ⟨(by decide : (400 : Nat) ≠ 200), rfl, Or.inl rfl,
            fun hc => absurd hc (by decide : ¬(400 : Nat) = 500)⟩
        | some vid =>
          dsimp only
          cases htt : tryTimedText env.fetchTT 0 LANGS with
          | error u =>
            right; right; right
            dsimp only
            cases u
            exact ⟨(by decide : (500 : Nat) ≠ 200), rfl, Or.inl rfl, fun _ => rfl⟩
          | ok tt =>
            dsimp only
            by_cases htxt : (!tt.text.isEmpty) = true
            · rw [if_pos htxt]
              left
              refine ⟨tt, rfl, ?_, rfl, rfl⟩
              intro he
              rw [he] at htxt
              exact absurd htxt (by decide)
            · rw [if_neg htxt]
              cases hsub : (subsStage env).2 with
              | some t =>
                right; left
                dsimp only
                exact ⟨t, rfl, rfl, rfl⟩
              | none =>
                dsimp only
                by_cases hkey : env.openaiKey.isEmpty = true
                · rw [if_pos hkey]
                  right; right; right
                  exact ⟨(by decide : (422 : Nat) ≠ 200), rfl, Or.inr (Or.inl rfl),
                    fun hc => absurd hc (by decide : ¬(422 : Nat) = 500)⟩
                · rw [if_neg hkey]
                  cases haud : (audioStage env (subsStage env).1).2.1 with
                  | some t =>
                    right; right; left
                    dsimp only
                    exact ⟨t, rfl, rfl, rfl⟩
                  | none =>
                    right; right; right
                    dsimp only
                    exact ⟨(by decide : (422 : Nat) ≠ 200), rfl, Or.inr (Or.inr rfl),
                      fun hc => absurd hc (by decide : ¬(422 : Nat) = 500)⟩

/-- C1 counterexample: when an individual timedtext fetch rejects
(network failure), the exception escapes `tryTimedText` (`Except.error`)
— it is not recorded as a diagnostic — and the handler's top-level catch
turns it into the 500 response. -/
theorem C1_counterexample :
    tryTimedText (fun _ => .thrown) 0 LANGS = .error () ∧
    (part001Run envThrow reqStd).resp.status = 500 :=
  ⟨rfl, rfl⟩

/-- C1 (amended): an individual attempt whose fetch settles — whatever
its status or body — never aborts the client or the request: if no fetch
rejects, `tryTimedText` always returns normally and the handler never
takes the 500 path.  Only a rejected fetch promise (a thrown exception,
not a failed HTTP response) escapes to the top-level catch. -/
theorem C1_amended (env : P1Env) (req : Req) (h : ∀ m, env.fetchTT m ≠ .thrown) :
    (part001Run env req).resp.status ≠ 500 ∧
    ∀ (langs : List (List Char)) (n : Nat), ∃ res, tryTimedText env.fetchTT n langs = Except.ok res := by
  refine ⟨?_, fun langs n => tt_nothrow_ok env.fetchTT h langs n⟩
  intro hc
  rcases part001_cases env req with ⟨tt, _, _, hresp, _⟩ | ⟨t, _, hresp, _⟩ |
    ⟨t, _, hresp, _⟩ | ⟨_, _, _, h500⟩
  · rw [hresp] at hc
    exact absurd hc (by decide : ¬(200 : Nat) = 500)
  · rw [hresp] at hc
    exact absurd hc (by decide : ¬(200 : Nat) = 500)
  · rw [hresp] at hc
    exact absurd hc (by decide : ¬(200 : Nat) = 500)
  · obtain ⟨res, hres⟩ := tt_nothrow_ok env.fetchTT h LANGS 0
    rw [h500 hc] at hres
    exact Except.noConfusion hres

/-- C1 witness: an environment whose every fetch settles with a 404. -/
theorem C1_witness :
    (∀ m, env404.fetchTT m ≠ .thrown) ∧
    ((part001Run env404 reqStd).resp.status ≠ 500 ∧
     ∀ (langs : List (List Char)) (n : Nat), ∃ res, tryTimedText env404.fetchTT n langs = Except.ok res) :=
  ⟨fun _ h => FetchOutcome.noConfusion h,
   C1_amended env404 reqStd (fun _ h => FetchOutcome.noConfusion h)⟩

/-- C3 counterexample: captions exhausted, Whisper configured, and the
audio yt-dlp invocation reports an error while still producing the audio
file: the `!dlErr && exists(audioPath)` guard skips both the Whisper
upload and the `rm`, so the handler returns 422 with the audio temp file
still on disk. -/
theorem C3_counterexample :
    (part001Run envC3 reqStd).resp.status = 422 ∧
    lookupFS audioPath (part001Run envC3 reqStd).fs = some "X".data :=
  ⟨rfl, rfl⟩

/-- C3 (amended): candidate subtitle files and cookie files are removed
on every exit path (provided the extraction tool writes only the
candidate-named files), but the audio file is not covered by cleanup on
every path: everything that can remain after the handler returns is the
audio file, which genuinely leaks when the audio invocation errors while
still producing it (see the counterexample). -/
theorem C3_amended (env : P1Env) (req : Req)
    (hs : env.shSubs.files.all (fun pc => subsCandidates.contains pc.1) = true)
    (ha : env.shAudio.files.all (fun pc => pc.1 == audioPath) = true) :
    ((part001Run env req).fs).all (fun e => e.1 == audioPath) = true := by
  have hsubs := subsStage_fs env hs
  have hgen : ∀ fs' : FS, (fs' = [] ∨ fs' = (subsStage env).1 ∨
      fs' = (audioStage env (subsStage env).1).1) →
      fs'.all (fun e => e.1 == audioPath) = true := by
    intro fs' hfs'
    rcases hfs' with h1 | h1 | h1
    · rw [h1]; rfl
    · rw [h1, hsubs]; rfl
    · rw [h1]
      refine List.all_eq_true.mpr ?_
      intro e he
      refine beq_iff_eq.mpr (audioStage_fs env (subsStage env).1 ha ?_ e he)
      intro e2 he2
      rw [hsubs] at he2
      exact absurd he2 (List.not_mem_nil e2)
  rcases part001_cases env req with ⟨tt, _, _, _, hfs⟩ | ⟨t, _, _, hfs⟩ |
    ⟨t, _, _, hfs⟩ | ⟨_, _, hfs, _⟩
  · exact hgen _ (Or.inl hfs)
  · exact hgen _ (Or.inr (Or.inl hfs))
  · exact hgen _ (Or.inr (Or.inr hfs))
  · exact hgen _ hfs

/-- C3 witness: the hypotheses hold of the counterexample environment,
whose leaked file is indeed the audio file and nothing else. -/
theorem C3_witness :
    (envC3.shSubs.files.all (fun pc => subsCandidates.contains pc.1) = true) ∧
    (envC3.shAudio.files.all (fun pc => pc.1 == audioPath) = true) ∧
    ((part001Run envC3 reqStd).fs).all (fun e => e.1 == audioPath) = true :=
  ⟨by decide, by decide, C3_amended envC3 reqStd (by decide) (by decide)⟩

/-- C4 counterexample: the simplest variant (`src/server.js` line 99)
returns a 200 success whose body is `{text}` with no `source` field. -/
theorem C4_counterexample :
    (serverJsRun envSJ4 reqStd).resp.status = 200 ∧
    (serverJsRun envSJ4 reqStd).resp.source = none ∧
    (serverJsRun envSJ4 reqStd).resp.text.isSome = true :=
  ⟨rfl, rfl, rfl⟩

/-- C4 (amended): in the full variant (part_001) every 200 response
carries both a non-empty `text` and a `source` tag; in the simplest
variant (server.js) the success body has non-empty text but no source
field (see the counterexample). -/
theorem C4_amended (env : P1Env) (req : Req) (h : (part001Run env req).resp.status = 200) :
    (part001Run env req).resp.source.isSome = true ∧
    (part001Run env req).resp.text.isSome = true ∧
    (part001Run env req).resp.text.getD [] ≠ [] := by
  rcases part001_cases env req with ⟨tt, htt, hne, hresp, _⟩ | ⟨t, hsub, hresp, _⟩ |
    ⟨t, haud, hresp, _⟩ | ⟨hst, _, _, _⟩
  · obtain ⟨hsome, _, _, _⟩ := tt_accept_spec env.fetchTT LANGS 0 tt htt hne
    rw [hresp]
    exact ⟨hsome, rfl, hne⟩
  · obtain ⟨hlen, _⟩ := subsStage_accept env t hsub
    rw [hresp]
    refine ⟨rfl, rfl, ?_⟩
    intro he
    have he2 : t = [] := he
    rw [he2] at hlen
    exact absurd hlen (by decide)
  · obtain ⟨hlen, _⟩ := audioStage_accept env (subsStage env).1 t haud
    rw [hresp]
    refine ⟨rfl, rfl, ?_⟩
    intro he
    have he2 : t = [] := he
    rw [he2] at hlen
    exact absurd hlen (by decide)
  · exact absurd h hst

/-- C4 witness: a part_001 run whose timedtext stage succeeds. -/
theorem C4_witness :
    ((part001Run envTTok reqStd).resp.status = 200) ∧
    ((part001Run envTTok reqStd).resp.source.isSome = true ∧
     (part001Run envTTok reqStd).resp.text.isSome = true ∧
     (part001Run envTTok reqStd).resp.text.getD [] ≠ []) :=
  ⟨rfl, C4_amended envTTok reqStd rfl⟩

/-- C5 counterexample: the simplest variant accepts a transcript whose
length is exactly 30 — and it measures the untrimmed text, so the
trimmed length here is 29, yet the response is a 200 success. -/
theorem C5_counterexample :
    (serverJsRun envSJ5 reqStd).resp.status = 200 ∧
    (jsTrim ((serverJsRun envSJ5 reqStd).resp.text.getD [])).length = 29 ∧
    ¬ 30 < (jsTrim ((serverJsRun envSJ5 reqStd).resp.text.getD [])).length :=
  ⟨rfl, rfl, by decide⟩

/-- C5 (amended): in the full variant (part_001) every stage's acceptance
requires the trimmed text to exceed 30 characters — every 200 body text
is trim-stable with length strictly above 30.  The simpler variants'
yt-dlp stage accepts length exactly 30 (rejecting only `< 30`), and the
simplest variant measures untrimmed text (see the counterexample). -/
theorem C5_amended (env : P1Env) (req : Req) (h : (part001Run env req).resp.status = 200) :
    30 < ((part001Run env req).resp.text.getD []).length ∧
    jsTrim ((part001Run env req).resp.text.getD []) = (part001Run env req).resp.text.getD [] := by
  rcases part001_cases env req with ⟨tt, htt, hne, hresp, _⟩ | ⟨t, hsub, hresp, _⟩ |
    ⟨t, haud, hresp, _⟩ | ⟨hst, _, _, _⟩
  · obtain ⟨_, hlen, htr, _⟩ := tt_accept_spec env.fetchTT LANGS 0 tt htt hne
    rw [hresp]
    exact ⟨hlen, htr⟩
  · obtain ⟨hlen, htr⟩ := subsStage_accept env t hsub
    rw [hresp]
    exact ⟨hlen, htr⟩
  · obtain ⟨hlen, htr⟩ := audioStage_accept env (subsStage env).1 t haud
    rw [hresp]
    exact ⟨hlen, htr⟩
  · exact absurd h hst

/-- C5 witness: a part_001 run whose timedtext stage succeeds. -/
theorem C5_witness :
    ((part001Run envTTok reqStd).resp.status = 200) ∧
    (30 < ((part001Run envTTok reqStd).resp.text.getD []).length ∧
     jsTrim ((part001Run envTTok reqStd).resp.text.getD []) =
       (part001Run envTTok reqStd).resp.text.getD []) :=
  ⟨rfl, C5_amended envTTok reqStd rfl⟩

/-- C7: with a server token configured and a missing or mismatched
Authorization header, the response is a 401 with an error field, the
trace of collaborator interactions is empty — no identifier extraction,
no captions fetch, no subprocess, no transcription upload — and no temp
file was created. -/
theorem C7_auth_gate (env : P1Env) (req : Req) (h1 : env.token ≠ [])
    (h2 : req.authHeader.getD [] ≠ bearerOf env.token) :
    (part001Run env req).resp.status = 401 ∧
    (part001Run env req).resp.error = some .unauthorized ∧
    (part001Run env req).trace = [] ∧ (part001Run env req).fs = [] := by
  unfold part001Run
  rw [if_pos ⟨h1, h2⟩]
  exact ⟨rfl, rfl, rfl, rfl⟩

/-- C7 witness: a configured token and a request with no header. -/
theorem C7_witness :
    (envTok.token ≠ []) ∧ (reqStd.authHeader.getD [] ≠ bearerOf envTok.token) ∧
    ((part001Run envTok reqStd).resp.status = 401 ∧
     (part001Run envTok reqStd).resp.error = some .unauthorized ∧
     (part001Run envTok reqStd).trace = [] ∧ (part001Run envTok reqStd).fs = []) :=
  ⟨by decide, by decide, C7_auth_gate envTok reqStd (by decide) (by decide)⟩
